import Mathlib

/-!
Shallow embedding of `src/pymarc/field.py` (class `Field`, class `RawField`,
function `map_marc8_field`) and proofs about it.

Conventions of the embedding:
* Python text strings are `String`; Python byte strings (the payloads of
  `RawField`) are `List Nat`, one entry per byte.
* The flat alternating subfield list `[code0, value0, code1, value1, ...]` is
  a `List String`, exactly as the source stores it.
* Methods that mutate `self` become functions returning the new state; a
  raised Python exception becomes an explicit error value carrying the
  exception name.
* Python string comparison (`<` by code point) and `str.isdigit` (restricted
  to ASCII digits, the only characters appearing in the claims) are embedded
  as executable Boolean functions.
* The source iterates the flat list two elements at a time; on an odd-length
  list the iterator raises `IndexError` at the dangling element.  The pairing
  function below drops such a dangling element instead, and every theorem
  about subfield lists assumes the documented invariant that the list has
  even length (stated by quantifying over pair lists and flattening them).
-/

namespace Pymarc

/-- Python code-point comparison of strings at the character-list level. -/
def pyCharsLt : List Char → List Char → Bool
  | [], [] => false
  | [], _ :: _ => true
  | _ :: _, [] => false
  | a :: as, b :: bs =>
    if a.toNat < b.toNat then true
    else if b.toNat < a.toNat then false
    else pyCharsLt as bs

/-- Python `a < b` on strings: lexicographic comparison by code point. -/
def pyStrLt (a b : String) : Bool := pyCharsLt a.data b.data

/-- Python `str.isdigit`, restricted to ASCII digits: nonempty and made of
digit characters only. -/
def pyIsdigit (s : String) : Bool := !s.data.isEmpty && s.data.all Char.isDigit

/-- The tag classification of `Field.is_control_field`:
`self.tag < '010' and self.tag.isdigit()`. -/
def isControlField (tag : String) : Bool := pyStrLt tag "010" && pyIsdigit tag

/-- A `Field` object after `__init__`: either the control variant (attributes
`tag` and `data`) or the data variant (attributes `tag`, `indicator1`,
`indicator2`, `subfields`).  The variant records which attributes exist on
the Python object. -/
inductive Field where
  | controlField (tag : String) (data : String)
  | dataField (tag : String) (indicator1 indicator2 : String)
      (subfields : List String)
deriving DecidableEq, Repr

/-- Attribute `tag`, present on both variants. -/
def Field.tag : Field → String
  | .controlField t _ => t
  | .dataField t _ _ _ => t

/-- Attribute `subfields` when present, `[]` on a control field. -/
def Field.subfieldsList : Field → List String
  | .controlField _ _ => []
  | .dataField _ _ _ subs => subs

/-- Method `Field.is_control_field`. -/
def Field.is_control_field (f : Field) : Bool := isControlField f.tag

/-- Leading and trailing whitespace removal, as Python `int()` applies to its
string argument. -/
def pyStripChars (l : List Char) : List Char :=
  ((l.dropWhile Char.isWhitespace).reverse.dropWhile Char.isWhitespace).reverse

/-- Python `int(s)` on a string: optional surrounding whitespace, optional
sign, one or more ASCII digits.  `none` models the `ValueError` raised on any
other input.  (Digit-group underscores are not modelled; no tag in the claims
uses them.) -/
def pyIntParse (s : String) : Option Int :=
  match pyStripChars s.data with
  | [] => none
  | c :: cs =>
    let neg : Bool := c = '-'
    let ds : List Char := if c = '-' || c = '+' then cs else c :: cs
    if !ds.isEmpty && ds.all Char.isDigit then
      let n : Nat := ds.foldl (fun acc ch => 10 * acc + (ch.toNat - 48)) 0
      some (if neg then -(n : Int) else (n : Int))
    else none

/-- Decimal digit characters of a positive natural number, most significant
first; the first argument is recursion fuel (any value above the number of
digits works). -/
def natDigitsAux : Nat → Nat → List Char
  | 0, _ => []
  | _ + 1, 0 => []
  | fuel + 1, n => natDigitsAux fuel (n / 10) ++ [Char.ofNat (48 + n % 10)]

/-- Decimal rendering of a natural number. -/
def natDecimal (n : Nat) : String :=
  if n = 0 then "0" else String.mk (natDigitsAux (n + 1) n)

/-- Python `'%03i' % n`: the decimal form zero-padded to width 3; a sign
counts toward the width and the zeros go between the sign and the digits. -/
def fmt03i (n : Int) : String :=
  if n < 0 then
    let s := natDecimal n.natAbs
    "-" ++ String.mk (List.replicate (2 - s.length) '0') ++ s
  else
    let s := natDecimal n.toNat
    String.mk (List.replicate (3 - s.length) '0') ++ s

/-- Python `'%03s' % s`: right-justified in width 3 with spaces, never
truncated. -/
def fmt03s (s : String) : String :=
  String.mk (List.replicate (3 - s.length) ' ') ++ s

/-- Tag normalization performed by `Field.__init__`: `'%03i' % int(tag)` when
`int` parses the tag, otherwise `'%03s' % tag`. -/
def normalizeTag (tag : String) : String :=
  match pyIntParse tag with
  | some n => fmt03i n
  | none => fmt03s tag

/-- Constructor `Field.__init__`.  The `indicators` and `subfields` arguments
are `Option` to model the Python defaults (`None` becomes `[]`).  The
destructuring assignment
`self.indicator1, self.indicator2 = self.indicators = indicators`
raises `ValueError` unless exactly two indicators are present. -/
def Field.init (tag : String) (indicators : Option (List String))
    (subfields : Option (List String)) (data : String) : Except String Field :=
  let inds := indicators.getD []
  let subs := subfields.getD []
  let t := normalizeTag tag
  if isControlField t then .ok (.controlField t data)
  else
    match inds with
    | [i1, i2] => .ok (.dataField t i1 i2 subs)
    | _ => .error "ValueError"

/-- Exhaustive iteration with `__next__`: the flat list read two elements at
a time as (code, value) pairs. -/
def pairsOf {α : Type} : List α → List (α × α)
  | c :: v :: rest => (c, v) :: pairsOf rest
  | _ => []

/-- Flatten a pair list back into the flat alternating representation. -/
def flattenPairs {α : Type} (P : List (α × α)) : List α :=
  P.flatMap fun p => [p.1, p.2]

/-- Full iteration over a field: a control field has no `subfields`
attribute, so `__next__` raises `StopIteration` at once and the iteration
yields nothing. -/
def Field.iterPairs : Field → List (String × String)
  | .controlField _ _ => []
  | .dataField _ _ _ subs => pairsOf subs

/-- Method `Field.get_subfields` with `with_codes=False`: the values of the
subfields whose code is among `codes` (all of them when `codes` is empty), in
field order. -/
def Field.get_subfields (f : Field) (codes : List String) : List String :=
  (f.iterPairs.filter fun p => codes.contains p.1 || codes.isEmpty).map Prod.snd

/-- Method `Field.get_subfields` with `with_codes=True`: same selection,
returning (code, value) pairs. -/
def Field.get_subfields_with_codes (f : Field) (codes : List String) :
    List (String × String) :=
  f.iterPairs.filter fun p => codes.contains p.1 || codes.isEmpty

/-- Method `Field.count`: `len([subf for subf in self if subf[0] == code])`. -/
def Field.count (f : Field) (code : String) : Nat :=
  (f.iterPairs.filter fun p => p.1 == code).length

/-- Method `Field.__contains__`: at least one subfield carries the code. -/
def Field.containsCode (f : Field) (code : String) : Bool :=
  (f.get_subfields [code]).length > 0

/-- Method `Field.__getitem__`: the first value with the code, else `None`. -/
def Field.getitem (f : Field) (code : String) : Option String :=
  match f.get_subfields [code] with
  | [] => none
  | v :: _ => some v

/-- Method `Field.add_subfield` at the level of the flat list: append the
code and then the value. -/
def add_subfield (subs : List String) (code value : String) : List String :=
  subs ++ [code, value]

/-- Method `Field.delete_subfield` at the level of the flat list: scan
`enumerate(self.subfields)` for the first even index holding `code` (whose
paired value equals `match_value` when one is given), pop the two elements
there and return the popped value; otherwise return `None` and leave the list
as it was. -/
def delete_subfield (code : String) (match_value : Option String) :
    List String → Option String × List String
  | c :: v :: rest =>
    if c == code && (match_value.isNone || match_value == some v) then
      (some v, rest)
    else
      ((delete_subfield code match_value rest).1,
       c :: v :: (delete_subfield code match_value rest).2)
  | l => (none, l)

theorem delete_subfield_some_length (code : String) (mv : Option String) :
    ∀ subs v subs1, delete_subfield code mv subs = (some v, subs1) →
      subs1.length + 2 = subs.length
  | [], v, subs1 => by simp [delete_subfield]
  | [a], v, subs1 => by simp [delete_subfield]
  | a :: b :: l, v, subs1 => by
    intro h
    by_cases hc : (a == code && (mv.isNone || mv == some b)) = true
    · rw [delete_subfield, if_pos hc] at h
      have h2 : l = subs1 := congrArg Prod.snd h
      simp [← h2]
    · rw [delete_subfield, if_neg hc] at h
      have h1 : (delete_subfield code mv l).1 = some v := congrArg Prod.fst h
      have h2 : a :: b :: (delete_subfield code mv l).2 = subs1 :=
        congrArg Prod.snd h
      have hm : delete_subfield code mv l
          = (some v, (delete_subfield code mv l).2) := by
        rw [← h1]
      have hlen := delete_subfield_some_length code mv l v
        (delete_subfield code mv l).2 hm
      simp [← h2]
      omega

/-- Method `Field.delete_all_subfields`:
`while self.delete_subfield(code): continue`.  The loop condition is the
Python truthiness of the value returned by `delete_subfield`, so a deleted
empty-string value ends the loop. -/
def delete_all_subfields (code : String) (subs : List String) : List String :=
  match h : delete_subfield code none subs with
  | (some v, subs1) =>
    if v == "" then subs1 else delete_all_subfields code subs1
  | (none, _) => subs
termination_by subs.length
decreasing_by
  have := delete_subfield_some_length code none subs v subs1 h
  omega

/-- Method `Field.change_code` at the level of the flat list: the
comprehension rewrites every even-position element equal to `from_code` into
`to_code` and keeps everything else. -/
def change_code (from_code to_code : String) (subs : List String) :
    List String :=
  subs.enum.map fun p =>
    if p.1 % 2 = 0 then (if p.2 == from_code then to_code else p.2) else p.2

/-- Python slice `l[::2]`. -/
def sliceEven {α : Type} : List α → List α
  | [] => []
  | [a] => [a]
  | a :: _ :: rest => a :: sliceEven rest

/-- Method `Field.sort` at the level of the flat list:
`sorted(zip(subfields[::2], subfields[1::2]), key=key)` flattened back.
Python `sorted` is a stable sort comparing `key(x) < key(y)`; it is embedded
as `List.mergeSort` with the comparator `!(key y < key x)`, where `lt` is the
`<` of the key codomain.  The key receives the whole (code, value) tuple. -/
def sortSubfields {β : Type} (lt : β → β → Bool) (key : String × String → β)
    (subs : List String) : List String :=
  flattenPairs
    (((sliceEven subs).zip (sliceEven (subs.drop 1))).mergeSort
      fun p q => !(lt (key q) (key p)))

/-- Python `<` on tuples of two strings. -/
def pyPairLt (p q : String × String) : Bool :=
  pyStrLt p.1 q.1 || (p.1 == q.1 && pyStrLt p.2 q.2)

/-- Method `Field.sort` with the default key `lambda code: code`, the
identity: the (code, value) tuples themselves are compared, that is,
lexicographically by code and then by value. -/
def sortDefault (subs : List String) : List String :=
  sortSubfields pyPairLt (fun p => p) subs

/-- Python list read `l[i]`: negative indices count from the end of the
list; `none` models `IndexError`. -/
def pyIdx {α : Type} (l : List α) (i : Int) : Option α :=
  if i < 0 then
    if (0 : Int) ≤ i + l.length then l.get? (i + l.length).toNat else none
  else if i < l.length then l.get? i.toNat else none

/-- Python list write `l[i] = x` with the same index semantics. -/
def pySet {α : Type} (l : List α) (i : Int) (x : α) : Option (List α) :=
  if i < 0 then
    if (0 : Int) ≤ i + l.length then some (l.set (i + l.length).toNat x)
    else none
  else if i < l.length then some (l.set i.toNat x) else none

/-- The update loop of `Field.__setitem__`: `num_code` starts at
`len(subfields)//2` and decreases while it is nonnegative; the loop reads
`subfields[(num_code*2)-2]` and writes `subfields[(num_code*2)-1]`, indices
taken with Python semantics (at `num_code = 0` they are negative and address
the last pair). -/
def setitemLoop (code value : String) (subs : List String) :
    Nat → Except String (List String)
  | 0 =>
    match pyIdx subs (2 * (0 : Int) - 2) with
    | none => .error "IndexError"
    | some c =>
      if c == code then
        match pySet subs (2 * (0 : Int) - 1) value with
        | none => .error "IndexError"
        | some l => .ok l
      else .ok subs
  | k + 1 =>
    match pyIdx subs (2 * ((k : Int) + 1) - 2) with
    | none => .error "IndexError"
    | some c =>
      if c == code then
        match pySet subs (2 * ((k : Int) + 1) - 1) value with
        | none => .error "IndexError"
        | some l => .ok l
      else setitemLoop code value subs k

/-- Method `Field.__setitem__`.  The first component is `some exc` when the
call raises (`KeyError` for more than one matching code) and the second is
the state of `self` when the call returns or raises. -/
def Field.setitem (f : Field) (code value : String) : Option String × Field :=
  let ms := f.get_subfields [code]
  if ms.length > 1 then (some "KeyError", f)
  else if ms.length = 0 then
    match f with
    | .dataField t i1 i2 subs =>
      (none, .dataField t i1 i2 (add_subfield subs code value))
    | .controlField _ _ => (some "AttributeError", f)
  else
    match f with
    | .dataField t i1 i2 subs =>
      match setitemLoop code value subs (subs.length / 2) with
      | .ok subs1 => (none, .dataField t i1 i2 subs1)
      | .error e => (some e, f)
    | .controlField _ _ => (some "AttributeError", f)

/-- Python `s.replace(a, b)` for single characters. -/
def pyReplaceChar (s : String) (a b : Char) : String :=
  String.mk (s.data.map fun c => if c = a then b else c)

/-- Indicator rendering in `__str__`: a space or backslash indicator prints
as a single backslash, anything else prints literally. -/
def renderIndicator (ind : String) : String :=
  if ind == " " || ind == "\\" then "\\" else ind

/-- Method `Field.__str__` (MARCMaker text form).  The branch is chosen by
`is_control_field()`; accessing an attribute the variant does not carry
models Python's `AttributeError`. -/
def Field.toText (f : Field) : Except String String :=
  if isControlField f.tag then
    match f with
    | .controlField t d => .ok ("=" ++ t ++ "  " ++ pyReplaceChar d ' ' '\\')
    | .dataField _ _ _ _ => .error "AttributeError"
  else
    match f with
    | .dataField t i1 i2 subs =>
      .ok ("=" ++ t ++ "  " ++ renderIndicator i1 ++ renderIndicator i2
        ++ String.join ((pairsOf subs).map fun p => "$" ++ p.1 ++ p.2))
    | .controlField _ _ => .error "AttributeError"

/-- Function `map_marc8_field`, with the external `marc8_to_unicode` decoder
(spec section 6: an out-of-scope collaborator from `pymarc.marc8`, not under
`src/`) abstracted as the parameter `dec`.  The decoder is mapped over
`f.subfields`, the whole flat list.  (The Python 3 laziness of `map` is not
modelled: the mapped list is stored.) -/
def map_marc8_field (dec : String → String) (f : Field) : Except String Field :=
  if isControlField f.tag then
    match f with
    | .controlField t d => .ok (.controlField t (dec d))
    | .dataField _ _ _ _ => .error "AttributeError"
  else
    match f with
    | .dataField t i1 i2 subs => .ok (.dataField t i1 i2 (subs.map dec))
    | .controlField _ _ => .error "AttributeError"

/-- Modelled from the spec: `END_OF_FIELD` from `pymarc.constants` (a module
of this repository that is not under `src/`) is the fixed single-byte field
terminator shared process-wide, conventionally the ASCII record separator. -/
def END_OF_FIELD : List Nat := [30]

/-- Modelled from the spec: `SUBFIELD_INDICATOR` from `pymarc.constants` (not
under `src/`) is the fixed single-byte subfield delimiter, conventionally the
ASCII unit separator. -/
def SUBFIELD_INDICATOR : List Nat := [31]

/-- Python `str.encode('ascii')` for the indicator characters. -/
def encodeAscii (s : String) : List Nat := s.data.map Char.toNat

/-- A `RawField` object: built by the same `__init__` as `Field`, but `data`
and the subfield list hold raw, undecoded byte strings. -/
inductive RawField where
  | controlField (tag : String) (data : List Nat)
  | dataField (tag : String) (indicator1 indicator2 : String)
      (subfields : List (List Nat))
deriving DecidableEq, Repr

/-- Attribute `tag` of a `RawField`. -/
def RawField.tag : RawField → String
  | .controlField t _ => t
  | .dataField t _ _ _ => t

/-- Method `RawField.as_marc(encoding=None)`.  The Boolean records whether
the non-fatal `logging.warn` fired, which happens exactly when a non-absent
encoding was supplied; the bytes are assembled from the raw payloads with no
text-to-bytes encoding step (the indicators, stored as text by `__init__`,
pass through `encode('ascii')`). -/
def RawField.as_marc (f : RawField) (encoding : Option String) :
    Bool × Except String (List Nat) :=
  let warned := encoding.isSome
  if isControlField f.tag then
    match f with
    | .controlField _ d => (warned, .ok (d ++ END_OF_FIELD))
    | .dataField _ _ _ _ => (warned, .error "AttributeError")
  else
    match f with
    | .dataField _ i1 i2 subs =>
      (warned, .ok (encodeAscii i1 ++ encodeAscii i2
        ++ ((pairsOf subs).flatMap fun p => SUBFIELD_INDICATOR ++ p.1 ++ p.2)
        ++ END_OF_FIELD))
    | .controlField _ _ => (warned, .error "AttributeError")

/-- Follows the claim's words for the single-match branch of the item-style
write: update the value of the first pair whose code matches, keeping its
position (under the claim's hypothesis of exactly one match, "the" matching
subfield). -/
def updateValueAtCode (code value : String) :
    List (String × String) → List (String × String)
  | [] => []
  | q :: rest =>
    if q.1 == code then (q.1, value) :: rest
    else q :: updateValueAtCode code value rest

/-! Bridge lemmas between the flat alternating list and (code, value) pair
lists. -/

theorem pairsOf_flattenPairs {α : Type} (P : List (α × α)) :
    pairsOf (flattenPairs P) = P := by
  induction P with
  | nil => rfl
  | cons q Q ih => cases q; simp [flattenPairs, pairsOf] at ih ⊢; exact ih

theorem flattenPairs_length {α : Type} (P : List (α × α)) :
    (flattenPairs P).length = 2 * P.length := by
  induction P with
  | nil => rfl
  | cons q Q ih => simp [flattenPairs] at ih ⊢; omega

theorem flattenPairs_append {α : Type} (A B : List (α × α)) :
    flattenPairs (A ++ B) = flattenPairs A ++ flattenPairs B := by
  simp [flattenPairs]

theorem sliceEven_flattenPairs {α : Type} (P : List (α × α)) :
    sliceEven (flattenPairs P) = P.map Prod.fst := by
  induction P with
  | nil => rfl
  | cons q Q ih => cases q; simpa [flattenPairs, sliceEven] using ih

theorem sliceEven_cons_flattenPairs {α : Type} (x : α) (P : List (α × α)) :
    sliceEven (x :: flattenPairs P) = x :: P.map Prod.snd := by
  induction P generalizing x with
  | nil => rfl
  | cons q Q ih => cases q; simpa [flattenPairs, sliceEven] using ih _

theorem zip_slices_flattenPairs {α : Type} (P : List (α × α)) :
    (sliceEven (flattenPairs P)).zip
      (sliceEven ((flattenPairs P).drop 1)) = P := by
  cases P with
  | nil => rfl
  | cons q Q =>
    cases q
    show (sliceEven (flattenPairs (_ :: Q))).zip
      (sliceEven (_ :: flattenPairs Q)) = _
    rw [sliceEven_flattenPairs, sliceEven_cons_flattenPairs]
    show ((List.map Prod.fst (_ :: Q)).zip (List.map Prod.snd (_ :: Q))) = _
    rw [List.zip_map']
    simp

/-- C10: on a control field, which carries no subfield list, the query
operations report absence instead of failing: iteration yields no pairs,
`get_subfields` (in both forms, with any requested codes) returns the empty
list, `count` returns 0 for every code, the membership test is false for
every code, and the item-style read returns `None`. -/
theorem C10_control_field_queries (t d code : String) (codes : List String) :
    Field.iterPairs (.controlField t d) = []
    ∧ Field.get_subfields (.controlField t d) codes = []
    ∧ Field.get_subfields_with_codes (.controlField t d) codes = []
    ∧ Field.count (.controlField t d) code = 0
    ∧ Field.containsCode (.controlField t d) code = false
    ∧ Field.getitem (.controlField t d) code = none :=
  ⟨rfl, rfl, rfl, rfl, rfl, rfl⟩

/-- C7: `is_control_field()` is true exactly when the tag is purely numeric
and lexicographically below "010"; the tags "000" through "009" are control
tags, while "010", larger numeric tags, and non-numeric tags are not. -/
theorem C7_is_control_field_characterization :
    (∀ f : Field, f.is_control_field = true ↔
        (pyIsdigit f.tag = true ∧ pyStrLt f.tag "010" = true))
    ∧ (∀ t ∈ ["000", "001", "002", "003", "004",
              "005", "006", "007", "008", "009"], isControlField t = true)
    ∧ isControlField "010" = false
    ∧ isControlField "245" = false
    ∧ isControlField "LDR" = false
    ∧ (∀ t : String, pyIsdigit t = false → isControlField t = false)
    ∧ (∀ t : String, pyStrLt t "010" = false → isControlField t = false) := by
  refine ⟨?_, by decide, by decide, by decide, by decide, ?_, ?_⟩
  · intro f
    simp [Field.is_control_field, isControlField, and_comm]
  · intro t h
    simp [isControlField, h]
  · intro t h
    simp [isControlField, h]

/-- C7 witness: concrete boundary instances obtained from the theorem. -/
theorem C7_is_control_field_witness :
    isControlField "003" = true ∧ isControlField "abc" = false :=
  ⟨C7_is_control_field_characterization.2.1 "003" (by decide),
   C7_is_control_field_characterization.2.2.2.2.2.1 "abc" (by decide)⟩

/-- C1 (bug evidence): `delete_all_subfields` stops as soon as the deleted
value is the empty string, because the `while` loop tests the Python
truthiness of the returned value; on the field with subfields
`a:"", a:"Foo"` one subfield with code `a` survives, contradicting the claim
(and the method's own docstring). -/
theorem C1_delete_all_subfields_empty_value_stops :
    delete_all_subfields "a" ["a", "", "a", "Foo"] = ["a", "Foo"]
    ∧ (Field.dataField "245" "0" "1"
        (delete_all_subfields "a" ["a", "", "a", "Foo"])).count "a" = 1 := by
  have h : delete_all_subfields "a" ["a", "", "a", "Foo"] = ["a", "Foo"] := by
    rw [delete_all_subfields]
    simp [delete_subfield]
  exact ⟨h, by rw [h]; rfl⟩

/-- C8: the text rendering is the equals sign, the tag and two spaces,
followed by the space-escaped data for a control field, or by the two
escaped indicators and a dollar-code-value group per subfield for a data
field; in particular the 245 example renders as stated. -/
theorem C8_text_rendering :
    (∀ t d : String, isControlField t = true →
        Field.toText (.controlField t d)
          = .ok ("=" ++ t ++ "  " ++ pyReplaceChar d ' ' '\\'))
    ∧ (∀ (t i1 i2 : String) (P : List (String × String)),
        isControlField t = false →
        Field.toText (.dataField t i1 i2 (flattenPairs P))
          = .ok ("=" ++ t ++ "  " ++ renderIndicator i1 ++ renderIndicator i2
              ++ String.join (P.map fun p => "$" ++ p.1 ++ p.2)))
    ∧ Field.toText (.dataField "245" "0" "1" ["a", "Foo", "b", "Bar"])
        = .ok "=245  01$aFoo$bBar" := by
  refine ⟨?_, ?_, by rfl⟩
  · intro t d h
    simp [Field.toText, Field.tag, h]
  · intro t i1 i2 P h
    simp [Field.toText, Field.tag, h, pairsOf_flattenPairs]

/-- C8 witness: the theorem applied to the 245 example, pair-list form. -/
theorem C8_text_rendering_witness :
    Field.toText (.dataField "245" "0" "1" (flattenPairs [("a", "Foo"), ("b", "Bar")]))
      = .ok ("=" ++ "245" ++ "  " ++ renderIndicator "0" ++ renderIndicator "1"
          ++ String.join ([("a", "Foo"), ("b", "Bar")].map fun p => "$" ++ p.1 ++ p.2)) :=
  C8_text_rendering.2.1 "245" "0" "1" [("a", "Foo"), ("b", "Bar")] (by decide)

/-- C9: constructing a data field (normalized tag not a control tag) fails
with the destructuring `ValueError` whenever the indicator sequence does not
have length exactly 2 — including when no indicators are supplied, which
defaults to the empty sequence — and succeeds with exactly two indicators,
storing them as `indicator1` and `indicator2`. -/
theorem C9_indicator_arity (tag : String) (subs : Option (List String))
    (d : String) (h : isControlField (normalizeTag tag) = false) :
    (∀ inds : List String, inds.length ≠ 2 →
        Field.init tag (some inds) subs d = .error "ValueError")
    ∧ Field.init tag none subs d = .error "ValueError"
    ∧ (∀ i1 i2 : String, Field.init tag (some [i1, i2]) subs d
        = .ok (.dataField (normalizeTag tag) i1 i2 (subs.getD []))) := by
  refine ⟨?_, ?_, ?_⟩
  · intro inds hlen
    match inds with
    | [] => simp [Field.init, h]
    | [a] => simp [Field.init, h]
    | [a, b] => simp at hlen
    | a :: b :: e :: rest => simp [Field.init, h]
  · simp [Field.init, h]
  · intro i1 i2
    simp [Field.init, h]

/-- C9 witness: the three branches at the tag "245". -/
theorem C9_indicator_arity_witness :
    Field.init "245" (some ["0"]) (some ["a", "Foo"]) "" = .error "ValueError"
    ∧ Field.init "245" none (some ["a", "Foo"]) "" = .error "ValueError"
    ∧ Field.init "245" (some ["0", "1"]) (some ["a", "Foo"]) ""
        = .ok (.dataField "245" "0" "1" ["a", "Foo"]) :=
  ⟨(C9_indicator_arity "245" (some ["a", "Foo"]) "" (by decide)).1 ["0"] (by decide),
   (C9_indicator_arity "245" (some ["a", "Foo"]) "" (by decide)).2.1,
   (C9_indicator_arity "245" (some ["a", "Foo"]) "" (by decide)).2.2 "0" "1"⟩

/-- C4 counterexample: `map_marc8_field` maps the decoder over the whole flat
subfield list, so subfield codes are rewritten too; with a decoder that
appends "!" the code "a" becomes "a!", while the claim says codes are left
unchanged. -/
theorem C4_map_marc8_rewrites_codes_counterexample :
    map_marc8_field (fun s => s ++ "!") (.dataField "245" "0" "1" ["a", "Foo"])
      = .ok (.dataField "245" "0" "1" ["a!", "Foo!"])
    ∧ ("a!" : String) ≠ "a" :=
  ⟨rfl, by decide⟩

/-- C4 as amended: the decode hook rewrites the control-field data, or every
element of the flat subfield list — the subfield codes as well as the values
— through the decoder; the tag, the indicators and the pairing structure are
unchanged (each (code, value) pair becomes (dec code, dec value)). -/
theorem C4_map_marc8_frame (dec : String → String) :
    (∀ t d : String, isControlField t = true →
        map_marc8_field dec (.controlField t d) = .ok (.controlField t (dec d)))
    ∧ (∀ (t i1 i2 : String) (subs : List String), isControlField t = false →
        map_marc8_field dec (.dataField t i1 i2 subs)
          = .ok (.dataField t i1 i2 (subs.map dec)))
    ∧ (∀ P : List (String × String),
        pairsOf ((flattenPairs P).map dec)
          = P.map fun q => (dec q.1, dec q.2)) := by
  refine ⟨?_, ?_, ?_⟩
  · intro t d h
    simp [map_marc8_field, Field.tag, h]
  · intro t i1 i2 subs h
    simp [map_marc8_field, Field.tag, h]
  · intro P
    induction P with
    | nil => rfl
    | cons q Q ih =>
      rcases q with ⟨a, b⟩
      have hfl : flattenPairs ((a, b) :: Q) = a :: b :: flattenPairs Q := rfl
      rw [hfl, List.map_cons, List.map_cons]
      show (dec a, dec b) :: pairsOf (List.map dec (flattenPairs Q)) = _
      rw [ih, List.map_cons]

/-- C4 witness: the amended theorem applied to concrete fields with the
identity decoder. -/
theorem C4_map_marc8_frame_witness :
    map_marc8_field (fun s => s) (.controlField "001" "x")
      = .ok (.controlField "001" ((fun s => s) "x"))
    ∧ map_marc8_field (fun s => s) (.dataField "245" "0" "1" ["a", "Foo"])
      = .ok (.dataField "245" "0" "1" (["a", "Foo"].map fun s => s)) :=
  ⟨(C4_map_marc8_frame fun s => s).1 "001" "x" (by decide),
   (C4_map_marc8_frame fun s => s).2.1 "245" "0" "1" ["a", "Foo"] (by decide)⟩

/-- C5: `RawField.as_marc` with a non-absent encoding fires the non-fatal
warning and returns exactly the bytes of the encoding-free call; those bytes
are the raw data plus terminator for a control field, and the two
ASCII-encoded indicator bytes, the delimiter-code-value groups, and the
terminator for a data field, with no encoding step on the raw payloads. -/
theorem C5_rawfield_as_marc_ignores_encoding :
    (∀ (f : RawField) (e : String),
        (f.as_marc (some e)).1 = true
        ∧ (f.as_marc (some e)).2 = (f.as_marc none).2
        ∧ (f.as_marc none).1 = false)
    ∧ (∀ (t : String) (d : List Nat) (e : Option String),
        isControlField t = true →
        (RawField.as_marc (.controlField t d) e).2 = .ok (d ++ END_OF_FIELD))
    ∧ (∀ (t i1 i2 : String) (P : List (List Nat × List Nat)) (e : Option String),
        isControlField t = false →
        (RawField.as_marc (.dataField t i1 i2 (flattenPairs P)) e).2
          = .ok (encodeAscii i1 ++ encodeAscii i2
              ++ (P.flatMap fun q => SUBFIELD_INDICATOR ++ q.1 ++ q.2)
              ++ END_OF_FIELD)) := by
  refine ⟨?_, ?_, ?_⟩
  · intro f e
    cases f <;> simp only [RawField.as_marc] <;> split <;>
      simp [Option.isSome]
  · intro t d e h
    simp [RawField.as_marc, RawField.tag, h]
  · intro t i1 i2 P e h
    simp [RawField.as_marc, RawField.tag, h, pairsOf_flattenPairs]

/-- C5 witness: concrete raw fields through the theorem. -/
theorem C5_rawfield_witness :
    (RawField.as_marc (.controlField "001" [102, 111]) (some "utf-8")).2
      = .ok ([102, 111] ++ END_OF_FIELD)
    ∧ (RawField.as_marc (.dataField "245" "0" "1"
          (flattenPairs [([97], [88])])) (some "utf-8")).2
      = .ok (encodeAscii "0" ++ encodeAscii "1"
          ++ ([([97], [88])].flatMap fun q => SUBFIELD_INDICATOR ++ q.1 ++ q.2)
          ++ END_OF_FIELD)
    ∧ (RawField.as_marc (.controlField "001" [102, 111]) (some "utf-8")).1 = true :=
  ⟨C5_rawfield_as_marc_ignores_encoding.2.1 "001" [102, 111] (some "utf-8") (by decide),
   C5_rawfield_as_marc_ignores_encoding.2.2 "245" "0" "1" [([97], [88])]
     (some "utf-8") (by decide),
   (C5_rawfield_as_marc_ignores_encoding.1 (.controlField "001" [102, 111]) "utf-8").1⟩

/-! Length bookkeeping for the mutation operations. -/

theorem delete_subfield_length (code : String) (mv : Option String) :
    ∀ subs : List String,
      (delete_subfield code mv subs).2.length = subs.length
      ∨ (delete_subfield code mv subs).2.length + 2 = subs.length
  | [] => Or.inl rfl
  | [a] => Or.inl rfl
  | a :: b :: l => by
    by_cases hc : (a == code && (mv.isNone || mv == some b)) = true
    · rw [delete_subfield, if_pos hc]
      right
      simp
    · rw [delete_subfield, if_neg hc]
      rcases delete_subfield_length code mv l with h | h <;>
        simp only [List.length_cons] <;> omega

theorem delete_all_subfields_even (code : String) :
    ∀ (n : Nat) (subs : List String), subs.length ≤ n → Even subs.length →
      Even (delete_all_subfields code subs).length := by
  intro n
  induction n with
  | zero =>
    intro subs hle hev
    have hnil : subs = [] := List.eq_nil_of_length_eq_zero (by omega)
    subst hnil
    have hval : delete_all_subfields code [] = [] := by
      rw [delete_all_subfields]
      simp [delete_subfield]
    rw [hval]
    exact hev
  | succ n ih =>
    intro subs hle hev
    rw [delete_all_subfields]
    split
    · next v subs1 heq =>
      have hlen := delete_subfield_some_length code none subs v subs1 heq
      have hev1 : Even subs1.length := by
        rcases hev with ⟨k, hk⟩
        exact ⟨k - 1, by omega⟩
      split
      · exact hev1
      · exact ih subs1 (by omega) hev1
    · exact hev

theorem pySet_some_length {α : Type} {l : List α} {i : Int} {x : α}
    {l1 : List α} (h : pySet l i x = some l1) : l1.length = l.length := by
  unfold pySet at h
  split at h
  · split at h
    · have hx := Option.some.inj h
      simp [← hx]
    · exact absurd h (by simp)
  · split at h
    · have hx := Option.some.inj h
      simp [← hx]
    · exact absurd h (by simp)

theorem setitemLoop_ok_length (code value : String) (subs : List String) :
    ∀ (k : Nat) (l : List String), setitemLoop code value subs k = .ok l →
      l.length = subs.length := by
  intro k
  induction k with
  | zero =>
    intro l h
    rw [setitemLoop] at h
    split at h
    · exact absurd h (by simp)
    · split at h
      · split at h
        · exact absurd h (by simp)
        · next l1 hst =>
          have hl : l1 = l := by simpa using h
          subst hl
          exact pySet_some_length hst
      · have hs : subs = l := by simpa using h
        simp [← hs]
  | succ k ih =>
    intro l h
    rw [setitemLoop] at h
    split at h
    · exact absurd h (by simp)
    · split at h
      · split at h
        · exact absurd h (by simp)
        · next l1 hst =>
          have hl : l1 = l := by simpa using h
          subst hl
          exact pySet_some_length hst
      · exact ih l h

theorem sortSubfields_length_even {β : Type} (lt : β → β → Bool)
    (key : String × String → β) (subs : List String) :
    Even (sortSubfields lt key subs).length := by
  rw [sortSubfields, flattenPairs_length]
  exact even_two_mul _

/-- C6: starting from a subfield list of even length, every mutation
operation — `add_subfield`, `delete_subfield` (with or without a match
value), `delete_all_subfields`, `change_code`, `sort` with any key, and the
item-style write — leaves the length even. -/
theorem C6_even_invariant {β : Type} (subs : List String)
    (h : Even subs.length)
    (code value from_code to_code c v t i1 i2 : String) (mv : Option String)
    (lt : β → β → Bool) (key : String × String → β) :
    Even (add_subfield subs code value).length
    ∧ Even (delete_subfield code mv subs).2.length
    ∧ Even (delete_all_subfields code subs).length
    ∧ Even (change_code from_code to_code subs).length
    ∧ Even (sortSubfields lt key subs).length
    ∧ Even (((Field.dataField t i1 i2 subs).setitem c v).2.subfieldsList).length := by
  rcases h with ⟨m, hm⟩
  refine ⟨?_, ?_, ?_, ?_, ?_, ?_⟩
  · exact ⟨m + 1, by simp [add_subfield]; omega⟩
  · rcases delete_subfield_length code mv subs with hd | hd
    · exact ⟨m, by omega⟩
    · exact ⟨m - 1, by omega⟩
  · exact delete_all_subfields_even code subs.length subs le_rfl ⟨m, hm⟩
  · exact ⟨m, by simp [change_code]; omega⟩
  · exact sortSubfields_length_even lt key subs
  · rw [Field.setitem]
    split
    · exact ⟨m, hm⟩
    · split
      · exact ⟨m + 1, by simp [Field.subfieldsList, add_subfield]; omega⟩
      · rcases hl : setitemLoop c v subs (subs.length / 2) with e | subs1
        · exact ⟨m, hm⟩
        · have := setitemLoop_ok_length c v subs (subs.length / 2) subs1 hl
          exact ⟨m, by simp [Field.subfieldsList]; omega⟩

/-- C6 witness: the invariant at a concrete even-length field. -/
theorem C6_even_invariant_witness :
    Even (add_subfield ["a", "x", "b", "y"] "c" "z").length
    ∧ Even (delete_subfield "a" none ["a", "x", "b", "y"]).2.length
    ∧ Even (delete_all_subfields "a" ["a", "x", "b", "y"]).length
    ∧ Even (change_code "a" "z" ["a", "x", "b", "y"]).length
    ∧ Even (sortSubfields pyPairLt (fun p => p) ["a", "x", "b", "y"]).length
    ∧ Even (((Field.dataField "245" "0" "1" ["a", "x", "b", "y"]).setitem
        "a" "w").2.subfieldsList).length :=
  C6_even_invariant ["a", "x", "b", "y"] (by decide) "a" "w" "a" "z" "a" "w"
    "245" "0" "1" none pyPairLt (fun p => p)

/-! Characterization of the `__setitem__` update loop. -/

theorem pyIdx_nonneg {α : Type} (l : List α) (n : Nat) (h : n < l.length) :
    pyIdx l (n : Int) = l.get? n := by
  unfold pyIdx
  rw [if_neg (by omega), if_pos (by exact_mod_cast h)]
  simp

theorem pySet_nonneg {α : Type} (l : List α) (n : Nat) (x : α)
    (h : n < l.length) : pySet l (n : Int) x = some (l.set n x) := by
  unfold pySet
  rw [if_neg (by omega), if_pos (by exact_mod_cast h)]
  simp

theorem flattenPairs_get_code {α : Type} :
    ∀ (P : List (α × α)) (i : Nat),
      (flattenPairs P).get? (2 * i) = (P.get? i).map Prod.fst
  | [], i => by simp [flattenPairs]
  | q :: Q, 0 => by cases q; rfl
  | q :: Q, i + 1 => by
    rcases q with ⟨a, b⟩
    have h1 : flattenPairs ((a, b) :: Q) = a :: b :: flattenPairs Q := rfl
    have h2 : 2 * (i + 1) = 2 * i + 1 + 1 := by omega
    rw [h1, h2, List.get?_cons_succ, List.get?_cons_succ,
      flattenPairs_get_code Q i, List.get?_cons_succ]

theorem filter_length_one_decomp {α : Type} (p : α → Bool) :
    ∀ L : List α, (L.filter p).length = 1 →
      ∃ A x B, L = A ++ x :: B ∧ p x = true
        ∧ (∀ a ∈ A, p a = false) ∧ (∀ b ∈ B, p b = false) := by
  intro L
  induction L with
  | nil => intro h; simp at h
  | cons a L ih =>
    intro h
    by_cases hp : p a = true
    · refine ⟨[], a, L, rfl, hp, by simp, ?_⟩
      intro b hb
      have hlen0 : (L.filter p).length = 0 := by
        rw [List.filter_cons_of_pos hp] at h
        simpa using h
      have hnil : L.filter p = [] := List.eq_nil_of_length_eq_zero hlen0
      have hall := List.filter_eq_nil.mp hnil
      simpa using hall b hb
    · have hp0 : p a = false := by simpa using hp
      rw [List.filter_cons_of_neg (by simp [hp0])] at h
      rcases ih h with ⟨A, x, B, hL, hx, hA, hB⟩
      refine ⟨a :: A, x, B, by simp [hL], hx, ?_, hB⟩
      intro a1 ha1
      rcases List.mem_cons.mp ha1 with h1 | h1
      · rw [h1]; exact hp0
      · exact hA _ h1

theorem set_flattenPairs_value (c v0 v : String) :
    ∀ A : List (String × String), ∀ B : List (String × String),
      (flattenPairs (A ++ (c, v0) :: B)).set (2 * A.length + 1) v
        = flattenPairs (A ++ (c, v) :: B)
  | [], B => rfl
  | q :: A, B => by
    rcases q with ⟨a, b⟩
    have h1 : flattenPairs (((a, b) :: A) ++ (c, v0) :: B)
        = a :: b :: flattenPairs (A ++ (c, v0) :: B) := rfl
    have h2 : flattenPairs (((a, b) :: A) ++ (c, v) :: B)
        = a :: b :: flattenPairs (A ++ (c, v) :: B) := rfl
    have h3 : 2 * (((a, b) :: A).length) + 1 = (2 * A.length + 1) + 1 + 1 := by
      simp [List.length_cons]
      omega
    rw [h1, h2, h3, List.set_cons_succ, List.set_cons_succ,
      set_flattenPairs_value c v0 v A B]

theorem updateValueAtCode_decomp (c v v0 : String) :
    ∀ A : List (String × String), ∀ B : List (String × String),
      (∀ q ∈ A, (q.1 == c) = false) →
      updateValueAtCode c v (A ++ (c, v0) :: B) = A ++ (c, v) :: B
  | [], B => by
    intro _
    simp [updateValueAtCode]
  | q :: A, B => by
    intro hA
    have hq := hA q (by simp)
    have hrest : ∀ q1 ∈ A, (q1.1 == c) = false := fun q1 h1 => hA q1 (by simp [h1])
    show updateValueAtCode c v (q :: (A ++ (c, v0) :: B)) = _
    rw [updateValueAtCode, if_neg (by simp [hq]),
      updateValueAtCode_decomp c v v0 A B hrest]
    rfl

theorem setitemLoop_unique (c v v0 : String) (A B : List (String × String))
    (hB : ∀ q ∈ B, (q.1 == c) = false) :
    ∀ j, j ≤ B.length →
      setitemLoop c v (flattenPairs (A ++ (c, v0) :: B)) (A.length + 1 + j)
        = .ok ((flattenPairs (A ++ (c, v0) :: B)).set (2 * A.length + 1) v) := by
  have hlensubs : (flattenPairs (A ++ (c, v0) :: B)).length
      = 2 * (A.length + 1 + B.length) := by
    rw [flattenPairs_length]
    simp
    omega
  intro j
  induction j with
  | zero =>
    intro _
    have hk : A.length + 1 + 0 = A.length + 1 := by omega
    rw [hk, setitemLoop]
    have hix : (2 * ((A.length : Int) + 1) - 2) = ((2 * A.length : Nat) : Int) := by
      push_cast
      ring
    rw [hix, pyIdx_nonneg _ _ (by omega)]
    have hcode : (flattenPairs (A ++ (c, v0) :: B)).get? (2 * A.length)
        = some c := by
      rw [flattenPairs_get_code]
      have : (A ++ (c, v0) :: B).get? A.length = some (c, v0) := by
        rw [List.get?_append_right le_rfl]
        simp
      rw [this]
      rfl
    rw [hcode]
    simp only [Option.some.injEq]
    rw [if_pos (by simp)]
    have hst : (2 * ((A.length : Int) + 1) - 1)
        = ((2 * A.length + 1 : Nat) : Int) := by
      push_cast
      ring
    rw [hst, pySet_nonneg _ _ _ (by omega)]
  | succ j ih =>
    intro hj
    have hk : A.length + 1 + (j + 1) = (A.length + 1 + j) + 1 := by omega
    rw [hk, setitemLoop]
    have hix : (2 * (((A.length + 1 + j : Nat) : Int) + 1) - 2)
        = ((2 * (A.length + 1 + j) : Nat) : Int) := by
      push_cast
      ring
    rw [hix, pyIdx_nonneg _ _ (by omega)]
    have hjB : B.get? j = some (B.get ⟨j, by omega⟩) := List.get?_eq_get _
    have hcode : (flattenPairs (A ++ (c, v0) :: B)).get? (2 * (A.length + 1 + j))
        = some (B.get ⟨j, by omega⟩).1 := by
      rw [flattenPairs_get_code]
      have hsplit : (A ++ (c, v0) :: B).get? (A.length + 1 + j)
          = B.get? j := by
        have h1 : A.length + 1 + j = A.length + (1 + j) := by omega
        rw [h1, List.get?_append_right (by omega)]
        have h2 : A.length + (1 + j) - A.length = j + 1 := by omega
        rw [h2, List.get?_cons_succ]
      rw [hsplit, hjB]
      rfl
    split
    · next heq =>
      rw [hcode] at heq
      exact absurd heq (by simp)
    · next c1 heq =>
      rw [hcode] at heq
      have hc1 : c1 = (B.get ⟨j, by omega⟩).1 := (Option.some.inj heq).symm
      subst hc1
      have hnm := hB (B.get ⟨j, by omega⟩) (List.get_mem B _ _)
      rw [if_neg (by simpa using hnm)]
      exact ih (by omega)

theorem get_subfields_single_length (t i1 i2 c : String)
    (P : List (String × String)) :
    ((Field.dataField t i1 i2 (flattenPairs P)).get_subfields [c]).length
      = (P.filter fun q => q.1 == c).length := by
  have hpred : ∀ q : String × String,
      (([c] : List String).contains q.1 || ([c] : List String).isEmpty)
        = (q.1 == c) := by
    intro q
    by_cases h : q.1 = c
    · simp [List.contains, h]
    · simp [List.contains, h, beq_eq_false_iff_ne]
  simp only [Field.get_subfields, Field.iterPairs, pairsOf_flattenPairs,
    List.length_map]
  rw [List.filter_congr fun q _ => hpred q]

theorem count_dataField (t i1 i2 c : String) (P : List (String × String)) :
    (Field.dataField t i1 i2 (flattenPairs P)).count c
      = (P.filter fun q => q.1 == c).length := by
  simp only [Field.count, Field.iterPairs, pairsOf_flattenPairs]

/-- C3: the item-style write with more than one matching code raises the
duplicate-code `KeyError` and leaves the field untouched; with no matching
code it appends (code, value) at the end; with exactly one matching code it
updates that subfield's value in place, preserving its position. -/
theorem C3_setitem_correct (t i1 i2 c v : String) (P : List (String × String)) :
    ((Field.dataField t i1 i2 (flattenPairs P)).count c > 1 →
        (Field.dataField t i1 i2 (flattenPairs P)).setitem c v
          = (some "KeyError", .dataField t i1 i2 (flattenPairs P)))
    ∧ ((Field.dataField t i1 i2 (flattenPairs P)).count c = 0 →
        (Field.dataField t i1 i2 (flattenPairs P)).setitem c v
          = (none, .dataField t i1 i2 (flattenPairs P ++ [c, v])))
    ∧ ((Field.dataField t i1 i2 (flattenPairs P)).count c = 1 →
        (Field.dataField t i1 i2 (flattenPairs P)).setitem c v
          = (none, .dataField t i1 i2 (flattenPairs (updateValueAtCode c v P)))) := by
  have hms := get_subfields_single_length t i1 i2 c P
  have hcnt := count_dataField t i1 i2 c P
  refine ⟨?_, ?_, ?_⟩
  · intro h
    rw [hcnt] at h
    rw [Field.setitem]
    rw [if_pos (by rw [hms]; exact h)]
  · intro h
    rw [hcnt] at h
    rw [Field.setitem]
    rw [if_neg (by rw [hms]; omega), if_pos (by rw [hms]; exact h)]
    rfl
  · intro h
    rw [hcnt] at h
    rcases filter_length_one_decomp (fun q => q.1 == c) P h with
      ⟨A, x, B, hP, hx, hA, hB⟩
    have hxc : x.1 = c := by simpa using hx
    rcases x with ⟨x1, x0⟩
    subst hxc
    subst hP
    rw [Field.setitem]
    rw [if_neg (by rw [hms]; omega), if_neg (by rw [hms]; omega)]
    have hdiv : (flattenPairs (A ++ (x1, x0) :: B)).length / 2
        = A.length + 1 + B.length := by
      rw [flattenPairs_length]
      simp
      omega
    rw [hdiv]
    have hloop := setitemLoop_unique x1 v x0 A B hB B.length le_rfl
    rw [hloop, set_flattenPairs_value, updateValueAtCode_decomp x1 v x0 A B hA]

/-- C3 witness: the three branches at concrete fields. -/
theorem C3_setitem_witness :
    (Field.dataField "245" "0" "1"
        (flattenPairs [("a", "x"), ("a", "y")])).setitem "a" "new"
      = (some "KeyError", .dataField "245" "0" "1"
          (flattenPairs [("a", "x"), ("a", "y")]))
    ∧ (Field.dataField "245" "0" "1"
        (flattenPairs [("b", "x")])).setitem "a" "new"
      = (none, .dataField "245" "0" "1" (flattenPairs [("b", "x")] ++ ["a", "new"]))
    ∧ (Field.dataField "245" "0" "1"
        (flattenPairs [("b", "x"), ("a", "y"), ("c", "z")])).setitem "a" "new"
      = (none, .dataField "245" "0" "1"
          (flattenPairs (updateValueAtCode "a" "new"
            [("b", "x"), ("a", "y"), ("c", "z")]))) :=
  ⟨(C3_setitem_correct "245" "0" "1" "a" "new" [("a", "x"), ("a", "y")]).1
      (by decide),
   (C3_setitem_correct "245" "0" "1" "a" "new" [("b", "x")]).2.1 (by decide),
   (C3_setitem_correct "245" "0" "1" "a" "new"
      [("b", "x"), ("a", "y"), ("c", "z")]).2.2 (by decide)⟩

/-! Order facts about the embedded Python comparisons, used for the sort
claim. -/

theorem char_toNat_inj {a b : Char} (h : a.toNat = b.toNat) : a = b :=
  Char.ext (UInt32.ext h)

theorem pyCharsLt_asymm :
    ∀ a b : List Char, pyCharsLt a b = true → pyCharsLt b a = false
  | [], [] => by simp [pyCharsLt]
  | [], _ :: _ => by simp [pyCharsLt]
  | _ :: _, [] => by simp [pyCharsLt]
  | x :: xs, y :: ys => by
    intro h
    rw [pyCharsLt] at h ⊢
    by_cases h1 : x.toNat < y.toNat
    · rw [if_neg (by omega), if_pos h1]
    · by_cases h2 : y.toNat < x.toNat
      · rw [if_neg h1, if_pos h2] at h
        exact absurd h (by simp)
      · rw [if_neg h1, if_neg h2] at h
        rw [if_neg h2, if_neg h1]
        exact pyCharsLt_asymm xs ys h

theorem pyCharsLt_trans :
    ∀ a b c : List Char, pyCharsLt a b = true → pyCharsLt b c = true →
      pyCharsLt a c = true
  | [], [], _ => by simp [pyCharsLt]
  | [], _ :: _, [] => by simp [pyCharsLt]
  | [], _ :: _, _ :: _ => by simp [pyCharsLt]
  | _ :: _, [], _ => by simp [pyCharsLt]
  | _ :: _, _ :: _, [] => by simp [pyCharsLt]
  | x :: xs, y :: ys, z :: zs => by
    intro h1 h2
    rw [pyCharsLt] at h1 h2 ⊢
    by_cases hxy : x.toNat < y.toNat
    · by_cases hyz : y.toNat < z.toNat
      · rw [if_pos (by omega)]
      · by_cases hzy : z.toNat < y.toNat
        · rw [if_neg hyz, if_pos hzy] at h2
          exact absurd h2 (by simp)
        · rw [if_pos (by omega)]
    · by_cases hyx : y.toNat < x.toNat
      · rw [if_neg hxy, if_pos hyx] at h1
        exact absurd h1 (by simp)
      · rw [if_neg hxy, if_neg hyx] at h1
        by_cases hyz : y.toNat < z.toNat
        · rw [if_pos (by omega)]
        · by_cases hzy : z.toNat < y.toNat
          · rw [if_neg hyz, if_pos hzy] at h2
            exact absurd h2 (by simp)
          · rw [if_neg hyz, if_neg hzy] at h2
            rw [if_neg (by omega), if_neg (by omega)]
            exact pyCharsLt_trans xs ys zs h1 h2

theorem pyCharsLt_conn :
    ∀ a b : List Char, pyCharsLt a b = false → pyCharsLt b a = false → a = b
  | [], [] => fun _ _ => rfl
  | [], _ :: _ => by simp [pyCharsLt]
  | _ :: _, [] => by simp [pyCharsLt]
  | x :: xs, y :: ys => by
    intro h1 h2
    rw [pyCharsLt] at h1 h2
    by_cases hxy : x.toNat < y.toNat
    · rw [if_pos hxy] at h1
      exact absurd h1 (by simp)
    · by_cases hyx : y.toNat < x.toNat
      · rw [if_pos hyx] at h2
        exact absurd h2 (by simp)
      · rw [if_neg hxy, if_neg hyx] at h1
        rw [if_neg hyx, if_neg hxy] at h2
        have hx : x = y := char_toNat_inj (by omega)
        rw [hx, pyCharsLt_conn xs ys h1 h2]

theorem pyStrLt_asymm {a b : String} (h : pyStrLt a b = true) :
    pyStrLt b a = false := pyCharsLt_asymm _ _ h

theorem pyStrLt_irrefl (a : String) : pyStrLt a a = false := by
  cases h : pyStrLt a a with
  | false => rfl
  | true => exact ((pyStrLt_asymm h).symm.trans h).symm

theorem pyStrLt_conn {a b : String} (h1 : pyStrLt a b = false)
    (h2 : pyStrLt b a = false) : a = b :=
  String.ext (pyCharsLt_conn _ _ h1 h2)

theorem pyStrLt_neg_trans {a b c : String} (h1 : pyStrLt b a = false)
    (h2 : pyStrLt c b = false) : pyStrLt c a = false := by
  cases hca : pyStrLt c a with
  | false => rfl
  | true =>
    exfalso
    by_cases hab : pyStrLt a b = true
    · have hcb := pyCharsLt_trans _ _ _ hca hab
      rw [show pyCharsLt c.data b.data = pyStrLt c b from rfl, h2] at hcb
      exact absurd hcb (by simp)
    · have hae : a = b := pyStrLt_conn (by simpa using hab) h1
      rw [hae] at hca
      rw [hca] at h2
      exact absurd h2 (by simp)

theorem pyPairLt_asymm {p q : String × String} (h : pyPairLt p q = true) :
    pyPairLt q p = false := by
  rw [pyPairLt] at h ⊢
  rcases Bool.or_eq_true_iff.mp h with h1 | h1
  · rw [pyStrLt_asymm h1]
    have hne : (q.1 == p.1) = false := by
      by_cases he : q.1 = p.1
      · rw [he] at h1
        rw [pyStrLt_irrefl] at h1
        exact absurd h1 (by simp)
      · simpa using he
    rw [hne]
    rfl
  · rcases Bool.and_eq_true_iff.mp h1 with ⟨he, h2⟩
    have he1 : p.1 = q.1 := by simpa using he
    rw [← he1, pyStrLt_irrefl, pyStrLt_asymm h2]
    simp

theorem pyPairLt_neg_trans {p q r : String × String}
    (h1 : pyPairLt q p = false) (h2 : pyPairLt r q = false) :
    pyPairLt r p = false := by
  rw [pyPairLt] at h1 h2 ⊢
  rcases Bool.or_eq_false_iff.mp h1 with ⟨h1a, h1b⟩
  rcases Bool.or_eq_false_iff.mp h2 with ⟨h2a, h2b⟩
  have hfst : pyStrLt r.1 p.1 = false := pyStrLt_neg_trans h1a h2a
  rw [hfst]
  by_cases hrp : r.1 = p.1
  · have h2a1 : pyStrLt p.1 q.1 = false := by rw [← hrp]; exact h2a
    have hqp : q.1 = p.1 := pyStrLt_conn h1a h2a1
    have hq2 : pyStrLt q.2 p.2 = false := by
      have hbq : (q.1 == p.1) = true := by simp [hqp]
      rcases Bool.and_eq_false_iff.mp h1b with hb | hb
      · rw [hbq] at hb
        exact absurd hb (by simp)
      · exact hb
    have hr2 : pyStrLt r.2 q.2 = false := by
      have hbr : (r.1 == q.1) = true := by simp [hrp, hqp]
      rcases Bool.and_eq_false_iff.mp h2b with hb | hb
      · rw [hbr] at hb
        exact absurd hb (by simp)
      · exact hb
    have hp2 : pyStrLt r.2 p.2 = false := pyStrLt_neg_trans hq2 hr2
    simp [hp2]
  · simp [hrp]

theorem bool_not_true {b : Bool} : ((!b) = true) ↔ b = false := by
  cases b <;> simp

theorem pairLe_trans (a b c : String × String)
    (h1 : (!(pyPairLt b a)) = true) (h2 : (!(pyPairLt c b)) = true) :
    (!(pyPairLt c a)) = true := by
  rw [bool_not_true] at h1 h2 ⊢
  exact pyPairLt_neg_trans h1 h2

theorem pairLe_total (a b : String × String) :
    ((!(pyPairLt b a)) || (!(pyPairLt a b))) = true := by
  cases hab : pyPairLt b a with
  | false => simp
  | true => simp [pyPairLt_asymm hab]

/-- C2 counterexample: with the default key, `sort` compares the whole
(code, value) tuples, so the two code-"a" subfields of `a:"z", a:"b"` are
reordered by value: sorting yields `a:"b", a:"z"` instead of keeping the
original mutual order of subfields that share a code, as the claim's
stability requirement demands. -/
theorem C2_sort_default_not_stable_counterexample :
    sortDefault ["a", "z", "a", "b"] = ["a", "b", "a", "z"]
    ∧ (pairsOf ["a", "z", "a", "b"]).map Prod.fst = ["a", "a"]
    ∧ sortDefault ["a", "z", "a", "b"] ≠ ["a", "z", "a", "b"] := by
  have h : sortDefault ["a", "z", "a", "b"] = ["a", "b", "a", "z"] := by
    simp [sortDefault, sortSubfields, sliceEven, flattenPairs, List.mergeSort,
      pyPairLt, pyStrLt, pyCharsLt, String.data]
  refine ⟨h, rfl, ?_⟩
  rw [h]
  decide

/-- C2 as amended: `sort` stable-sorts the (code, value) pairs by the key
applied to the whole pair (not to the code alone): for any key whose induced
comparison is transitive and total, the result is the stable merge sort of
the pair list — its keys are non-decreasing, it is a permutation of the
input, and any pair-subsequence already in key order survives in order
(stability for equal keys).  With the default identity key the pairs end up
ordered lexicographically by (code, value) — in particular the codes are
non-decreasing — rather than preserving the original order of equal-code
subfields. -/
theorem C2_sort_stable_by_pair_key {β : Type} (lt : β → β → Bool)
    (key : String × String → β) (P : List (String × String))
    (htrans : ∀ a b c : String × String, (!(lt (key b) (key a))) = true →
        (!(lt (key c) (key b))) = true → (!(lt (key c) (key a))) = true)
    (htotal : ∀ a b : String × String,
        ((!(lt (key b) (key a))) || (!(lt (key a) (key b)))) = true) :
    pairsOf (sortSubfields lt key (flattenPairs P))
        = P.mergeSort (fun p q => !(lt (key q) (key p)))
    ∧ (pairsOf (sortSubfields lt key (flattenPairs P))).Pairwise
        (fun p q => (!(lt (key q) (key p))) = true)
    ∧ (pairsOf (sortSubfields lt key (flattenPairs P))).Perm P
    ∧ (∀ C : List (String × String),
        C.Pairwise (fun p q => (!(lt (key q) (key p))) = true) →
        C.Sublist P → C.Sublist (pairsOf (sortSubfields lt key (flattenPairs P))))
    ∧ (pairsOf (sortDefault (flattenPairs P))).Pairwise
        (fun p q => pyPairLt q p = false)
    ∧ (pairsOf (sortDefault (flattenPairs P))).Pairwise
        (fun p q => pyStrLt q.1 p.1 = false) := by
  have hpairs : pairsOf (sortSubfields lt key (flattenPairs P))
      = P.mergeSort (fun p q => !(lt (key q) (key p))) := by
    rw [sortSubfields, zip_slices_flattenPairs, pairsOf_flattenPairs]
  have hdpairs : pairsOf (sortDefault (flattenPairs P))
      = P.mergeSort (fun p q => !(pyPairLt q p)) := by
    rw [sortDefault, sortSubfields, zip_slices_flattenPairs, pairsOf_flattenPairs]
  refine ⟨hpairs, ?_, ?_, ?_, ?_, ?_⟩
  · rw [hpairs]
    exact List.sorted_mergeSort htrans htotal P
  · rw [hpairs]
    exact List.mergeSort_perm P _
  · intro C hC hsub
    rw [hpairs]
    exact List.sublist_mergeSort htrans htotal hC hsub
  · rw [hdpairs]
    exact (List.sorted_mergeSort pairLe_trans pairLe_total P).imp
      fun h => bool_not_true.mp h
  · rw [hdpairs]
    refine (List.sorted_mergeSort pairLe_trans pairLe_total P).imp ?_
    intro p q hpq
    rw [bool_not_true, pyPairLt] at hpq
    exact (Bool.or_eq_false_iff.mp hpq).1

/-- C2 witness: the amended theorem at a concrete field with the default
tuple comparison as the key order. -/
theorem C2_sort_stable_witness :
    (pairsOf (sortSubfields pyPairLt (fun p => p)
        (flattenPairs [("b", "y"), ("a", "x")]))).Perm [("b", "y"), ("a", "x")]
    ∧ (pairsOf (sortDefault (flattenPairs [("b", "y"), ("a", "x")]))).Pairwise
        (fun p q => pyStrLt q.1 p.1 = false) :=
  ⟨(C2_sort_stable_by_pair_key pyPairLt (fun p => p) [("b", "y"), ("a", "x")]
      pairLe_trans pairLe_total).2.2.1,
   (C2_sort_stable_by_pair_key pyPairLt (fun p => p) [("b", "y"), ("a", "x")]
      pairLe_trans pairLe_total).2.2.2.2.2⟩

end Pymarc
